import Mathlib

/-!
The program wdf: argument parser, exclusion test and traversal.

A shallow embedding of `src/wdf.cpp` (`get_args`, `get_root_paths`,
`get_excluded_paths`, `get_file_type`, `print_help`, `is_path_excluded`,
`main`) together with the properties of the parser and of the traversal.

The command line is the list of tokens `argv[1] .. argv[argc-1]`.
A call of `exit` inside `get_args` is an `Except.error` carrying the exit
site; a normal return is `Except.ok`.
-/

namespace Wdf

/-- One parsed argument: `struct Arg` (wdf.cpp, lines 7-12). -/
structure Arg where
  option : Bool
  arg : String
  option_value : String
deriving DecidableEq

/-- The four places where `get_args` calls `exit` (wdf.cpp, lines 43, 50, 60, 69). -/
inductive Exit where
  /-- Lines 40-44: the token starts with '-' and is no known option. -/
  | unknownOption (arg : String)
  /-- Lines 47-51: the token is `-h` or `--help`. -/
  | help
  /-- Lines 57-61: a value-bearing option is the last token. -/
  | missingValue (arg : String)
  /-- Lines 66-70: the value of `-t`/`--type` is not a valid type. -/
  | invalidType
deriving DecidableEq

/-- The lines written by `print_help` (wdf.cpp, lines 14-21). -/
def print_help : List String :=
  [ "Usage: wdf [options] [paths]",
    "Options:",
    "  -h, --help\t\t\tShow this help message and exit",
    "  -e, --exclude [path]\t\tExclude a path from the search",
    "  -t, --type [type]\t\tType of file to search for" ]

/-- The argument given to `exit` at each exit site of `get_args`: every one of
them is `exit(1)` (lines 43, 50, 60, 69). -/
def Exit.status : Exit → Nat
  | .unknownOption _ => 1
  | .help => 1
  | .missingValue _ => 1
  | .invalidType => 1

/-- What an exit site writes to `std::cout` before `exit`. -/
def Exit.stdout : Exit → List String
  | .help => print_help
  | _ => []

/-- What an exit site writes to `std::cerr` before `exit`. -/
def Exit.stderr : Exit → List String
  | .unknownOption arg => ["Error: option '" ++ arg ++ "' does not exist"]
  | .help => []
  | .missingValue arg => ["Error: option '" ++ arg ++ "' requires a value"]
  | .invalidType => ["Error: option '--type' requires a valid value"]

/-- The usage errors of the parser: every exit of `get_args` that reports a
diagnostic on the error stream, i.e. every exit but the help exit. -/
def Exit.isUsageError : Exit → Bool
  | .help => false
  | _ => true

/-- The test `arg[0] == '-'` (line 35). For an empty `std::string`, `arg[0]` is
the terminating null character, which is not '-'. -/
def startsWithDash (s : String) : Bool :=
  match s.data with
  | [] => false
  | c :: _ => c == '-'

/-- The local variables of `get_args` that live across loop iterations
(lines 25-28): the vector built so far and the two variables `option` and
`option_value`, which are declared outside the loop and never reset. -/
structure ParseState where
  args : List Arg
  option : Bool
  option_value : String
deriving DecidableEq

/-- The state before the loop (lines 25-28). -/
def ParseState.init : ParseState := ⟨[], false, ""⟩

/-- The loop of `get_args` (lines 31-77) on the tokens still to be read. -/
def get_args_loop (st : ParseState) : List String → Except Exit ParseState
  | [] => .ok st
  | arg :: rest =>
    if startsWithDash arg then
      -- line 37: option = true
      if arg ≠ "-h" ∧ arg ≠ "--help" ∧ arg ≠ "-e" ∧ arg ≠ "--exclude"
          ∧ arg ≠ "-t" ∧ arg ≠ "--type" then
        .error (.unknownOption arg)
      else if arg = "-h" ∨ arg = "--help" then
        .error .help
      else if arg = "-e" ∨ arg = "--exclude" ∨ arg = "-t" ∨ arg = "--type" then
        match rest with
        | [] => .error (.missingValue arg)
        | option_value :: rest' =>
          if (arg = "-t" ∨ arg = "--type") ∧ option_value ≠ "directory"
              ∧ option_value ≠ "d" ∧ option_value ≠ "file" ∧ option_value ≠ "f" then
            .error .invalidType
          else
            -- line 72 skips the value; line 76 pushes the argument
            get_args_loop
              ⟨st.args ++ [⟨true, arg, option_value⟩], true, option_value⟩ rest'
      else
        get_args_loop ⟨st.args ++ [⟨true, arg, st.option_value⟩], true, st.option_value⟩ rest
    else
      get_args_loop
        ⟨st.args ++ [⟨st.option, arg, st.option_value⟩], st.option, st.option_value⟩ rest

/-- The function `get_args` (lines 23-80) on the tokens after the program name. -/
def get_args (tokens : List String) : Except Exit (List Arg) :=
  match get_args_loop ParseState.init tokens with
  | .ok st => .ok st.args
  | .error e => .error e

/-- The function `get_root_paths` (lines 82-101); `cwd` is the string of
`fs::current_path()`. -/
def get_root_paths (cwd : String) (args : List Arg) : List String :=
  let paths := (args.filter (fun a => !a.option)).map (fun a => a.arg)
  if paths.length < 1 then paths ++ [cwd] else paths

/-- The function `get_excluded_paths` (lines 103-116). -/
def get_excluded_paths (args : List Arg) : List String :=
  (args.filter (fun a => a.arg = "-e" ∨ a.arg = "--exclude")).map (fun a => a.option_value)

/-- The function `get_file_type` (lines 118-138). -/
def get_file_type (args : List Arg) : Char :=
  args.foldl
    (fun file_type a =>
      if a.arg = "-t" ∨ a.arg = "--type" then
        if a.option_value = "directory" ∨ a.option_value = "d" then 'd'
        else if a.option_value = "file" ∨ a.option_value = "f" then 'f'
        else file_type
      else file_type)
    'a'

/-- The candidate root paths in the words of the specification: the tokens, in
order, that do not start with '-' and are not consumed as the value of
`-e`/`--exclude`/`-t`/`--type`. -/
def specPositionalTokens : List String → List String
  | [] => []
  | t :: rest =>
    if t = "-e" ∨ t = "--exclude" ∨ t = "-t" ∨ t = "--type" then
      match rest with
      | [] => []
      | _ :: rest' => specPositionalTokens rest'
    else if startsWithDash t then specPositionalTokens rest
    else t :: specPositionalTokens rest

/-! ### Exclusion and traversal (wdf.cpp, lines 140-205)

The functions of `std::filesystem` and `std::string` that the program calls
are modelled below on strings: a path is its native string. -/

/-- The search of `std::string::find`: the first position at or after `pos` at
which `pat` occurs in the remaining characters, `none` for `npos`. -/
def find_from (pat : List Char) : List Char → Nat → Option Nat
  | [], pos => if pat.isPrefixOf [] then some pos else none
  | c :: cs, pos => if pat.isPrefixOf (c :: cs) then some pos else find_from pat cs (pos + 1)

/-- The call `s.find(pat)` of `std::string`; `none` stands for `std::string::npos`. -/
def string_find (s pat : String) : Option Nat :=
  find_from pat.data s.data 0

/-- The call `fs::path(p).generic_string()`: the path in generic format, where
the directory separator is '/'. `preferred_separator` is the constant
`fs::path::preferred_separator` of the platform: '/' on POSIX systems, where
the native string is already generic, and the backslash on Windows, where both
'/' and the backslash separate directories. -/
def generic_string (preferred_separator : Char) (p : String) : String :=
  ⟨p.data.map (fun c => if c = preferred_separator then '/' else c)⟩

/-- The function `is_path_excluded` (lines 140-153). -/
def is_path_excluded (preferred_separator : Char) (path : String) : List String → Bool
  | [] => false
  | excluded_path :: rest =>
    if string_find (generic_string preferred_separator path)
        (generic_string preferred_separator excluded_path) ≠ none then
      true
    else is_path_excluded preferred_separator path rest

/-- The values of `fs::file_type` that the program tells apart: a regular
file, a directory, everything else that has a status (other kinds of file, and
`not_found` for a path that does not exist), and `none`, the value of
`fs::file_type::none`, for a status that cannot be read (the call of
`fs::status` reports an error). -/
inductive file_type where
  | regular
  | directory
  | other
  | none
deriving DecidableEq

/-- The file system as the program observes it. `status p` is the type in
`fs::status(p, ec)` (`file_type.none` when the call reports an error; a path
that does not exist is no error), and `recursive_directory_iterator root` is
the sequence of the paths of the entries that
`fs::recursive_directory_iterator(root, skip_permission_denied)` yields, in
iteration order. -/
structure FileSystem where
  status : String → file_type
  recursive_directory_iterator : String → List String

/-- The call `fs::is_directory(p, ec)` (line 190), which does not throw: it is
false when the status cannot be read. -/
def is_directory (fsys : FileSystem) (p : String) : Bool :=
  fsys.status p = file_type.directory

/-- The call `fs::is_directory(p)` without error code (line 168): it throws
`fs::filesystem_error` when the status cannot be read, which is `Option.none`
here, and otherwise returns whether the path is a directory. -/
def is_directory_throwing (fsys : FileSystem) (p : String) : Option Bool :=
  if fsys.status p = file_type.none then Option.none
  else some (decide (fsys.status p = file_type.directory))

/-- The call `fs::is_regular_file(p, ec)`. -/
def is_regular_file (fsys : FileSystem) (p : String) : Bool :=
  fsys.status p = file_type.regular

/-- The body of the `switch` on `file_type` (lines 182-202): whether the entry
is written to the standard output. -/
def entry_printed (fsys : FileSystem) (ftype : Char) (entry : String) : Bool :=
  if ftype = 'a' then true
  else if ftype = 'd' then is_directory fsys entry
  else if ftype = 'f' then is_regular_file fsys entry
  else false

/-- The inner loop of `main` (lines 174-203) over the entries of one root: the
lines it writes to the standard output. -/
def print_entries (fsys : FileSystem) (preferred_separator : Char)
    (excluded_paths : List String) (ftype : Char) : List String → List String
  | [] => []
  | entry :: rest =>
    if is_path_excluded preferred_separator entry excluded_paths then
      -- line 179: continue
      print_entries fsys preferred_separator excluded_paths ftype rest
    else if entry_printed fsys ftype entry then
      entry :: print_entries fsys preferred_separator excluded_paths ftype rest
    else print_entries fsys preferred_separator excluded_paths ftype rest

/-- How a run of the program ends: `exit status` for a return from `main`
(status 0) or a call of `exit`, and `uncaught` when an exception leaves `main`,
which has no `try` block, so that the process is aborted by `std::terminate`. -/
inductive Ending where
  | exit (status : Nat)
  | uncaught
deriving DecidableEq

/-- What a run of the program leaves behind: the lines that the program wrote
to the standard output and to the error stream, and how it ended. -/
structure Run where
  stdout : List String
  stderr : List String
  ending : Ending
deriving DecidableEq

/-- The outer loop of `main` (lines 165-204) over the root paths still to be
scanned; `out` holds the lines written so far. The test of line 168 is the
throwing `fs::is_directory(root_path)`: when it throws, the exception leaves
`main`; when it returns false, the loop ends with `exit(1)` (lines 170-171).
`main` returns 0 when all roots are scanned. -/
def main_loop (fsys : FileSystem) (preferred_separator : Char)
    (excluded_paths : List String) (ftype : Char) : List String → List String → Run
  | [], out => ⟨out, [], .exit 0⟩
  | root_path :: rest, out =>
    match is_directory_throwing fsys root_path with
    | Option.none => ⟨out, [], .uncaught⟩
    | some is_dir =>
      if !is_dir then
        ⟨out, ["Error: path '" ++ root_path ++ "' does not exist"], .exit 1⟩
      else
        main_loop fsys preferred_separator excluded_paths ftype rest
          (out ++ print_entries fsys preferred_separator excluded_paths ftype
            (fsys.recursive_directory_iterator root_path))

/-- The function `main` (lines 155-205) on the tokens after the program name;
`cwd` is the string of `fs::current_path()`. -/
def main (fsys : FileSystem) (preferred_separator : Char) (cwd : String)
    (tokens : List String) : Run :=
  match get_args tokens with
  | .error e => ⟨e.stdout, e.stderr, .exit e.status⟩
  | .ok args =>
    main_loop fsys preferred_separator (get_excluded_paths args) (get_file_type args)
      (get_root_paths cwd args) []

/-! ### Directory trees

A directory tree and the file system that `std::filesystem` shows for it. -/

/-- The content of a directory: its entries in the order in which the directory
iterator reports them. A directory entry carries its own content and whether
it can be read (an unreadable directory is reported but not entered, by
`skip_permission_denied`). -/
inductive DirTree where
  | nil : DirTree
  | file (name : String) (rest : DirTree) : DirTree
  | other (name : String) (rest : DirTree) : DirTree
  | dir (name : String) (readable : Bool) (children : DirTree) (rest : DirTree) : DirTree

/-- The path `p / name` of `fs::path`: the separator is added unless `p` is
empty or already ends with one. -/
def path_append (preferred_separator : Char) (p name : String) : String :=
  match p.data.getLast? with
  | none => name
  | some c =>
    if c = '/' ∨ c = preferred_separator then p ++ name
    else p ++ String.singleton preferred_separator ++ name

/-- The recursive iteration below the directory `parent` whose content is the
tree: every entry with its path and type, each directory followed by what lies
below it. -/
def DirTree.walk (preferred_separator : Char) (parent : String) :
    DirTree → List (String × file_type)
  | .nil => []
  | .file name rest =>
    (path_append preferred_separator parent name, file_type.regular)
      :: DirTree.walk preferred_separator parent rest
  | .other name rest =>
    (path_append preferred_separator parent name, file_type.other)
      :: DirTree.walk preferred_separator parent rest
  | .dir name readable children rest =>
    (path_append preferred_separator parent name, file_type.directory)
      :: ((if readable then
            DirTree.walk preferred_separator (path_append preferred_separator parent name)
              children
          else [])
        ++ DirTree.walk preferred_separator parent rest)

/-- The recursive iteration below the directory entry of the tree whose path is
`p` (empty when the tree has no such directory). -/
def DirTree.subwalk (preferred_separator : Char) (p : String) (parent : String) :
    DirTree → List (String × file_type)
  | .nil => []
  | .file _ rest => DirTree.subwalk preferred_separator p parent rest
  | .other _ rest => DirTree.subwalk preferred_separator p parent rest
  | .dir name readable children rest =>
    if path_append preferred_separator parent name = p then
      (if readable then DirTree.walk preferred_separator p children else [])
    else if readable then
      DirTree.subwalk preferred_separator p (path_append preferred_separator parent name)
          children
        ++ DirTree.subwalk preferred_separator p parent rest
    else DirTree.subwalk preferred_separator p parent rest

/-- The file system that consists of the directory `root` with the given
content. -/
def treeFS (preferred_separator : Char) (root : String) (tree : DirTree) : FileSystem where
  status p :=
    if p = root then file_type.directory
    else ((tree.walk preferred_separator root).lookup p).getD file_type.other
  recursive_directory_iterator p :=
    if p = root then (tree.walk preferred_separator root).map Prod.fst
    else (tree.subwalk preferred_separator p root).map Prod.fst

/-- The tree of the example: below the root, the directory `x` holding the
regular file `y.txt`, and the empty directory `z`. -/
def exampleTree : DirTree :=
  .dir "x" true (.file "y.txt" .nil) (.dir "z" true .nil .nil)

/-- Two strings that differ at most in the separator style: they have the same
length, and where they differ both characters are '/' or the backslash. -/
def sameUpToSeparators (p q : String) : Prop :=
  List.Forall₂ (fun a b => a = b ∨ ((a = '/' ∨ a = '\\') ∧ (b = '/' ∨ b = '\\'))) p.data q.data

end Wdf


namespace Wdf

/-! ## Stepping the loop -/

theorem startsWithDash_of_known {a : String}
    (h : a = "-h" ∨ a = "--help" ∨ a = "-e" ∨ a = "--exclude" ∨ a = "-t" ∨ a = "--type") :
    startsWithDash a = true := by
  rcases h with h | h | h | h | h | h <;> subst h <;> rfl

theorem not_valid_type_of_dash {v : String} (h : startsWithDash v = true) :
    v ≠ "directory" ∧ v ≠ "d" ∧ v ≠ "file" ∧ v ≠ "f" := by
  refine ⟨?_, ?_, ?_, ?_⟩ <;> rintro rfl <;> simp [startsWithDash] at h

theorem loop_nil (st : ParseState) : get_args_loop st [] = .ok st := by
  rw [get_args_loop]

theorem loop_bare (st : ParseState) {a : String} (rest : List String)
    (h : startsWithDash a = false) :
    get_args_loop st (a :: rest) =
      get_args_loop
        ⟨st.args ++ [⟨st.option, a, st.option_value⟩], st.option, st.option_value⟩ rest := by
  cases rest <;> simp [get_args_loop, h]

theorem loop_unknown (st : ParseState) {a : String} (rest : List String)
    (hd : startsWithDash a = true)
    (hu : a ≠ "-h" ∧ a ≠ "--help" ∧ a ≠ "-e" ∧ a ≠ "--exclude" ∧ a ≠ "-t" ∧ a ≠ "--type") :
    get_args_loop st (a :: rest) = .error (.unknownOption a) := by
  cases rest <;> rw [get_args_loop] <;> simp only [hd, if_true] <;> rw [if_pos hu]

theorem loop_help (st : ParseState) {a : String} (rest : List String)
    (h : a = "-h" ∨ a = "--help") :
    get_args_loop st (a :: rest) = .error .help := by
  rcases h with h | h <;> subst h <;> cases rest <;> simp [get_args_loop, startsWithDash]

theorem loop_value_nil (st : ParseState) {a : String}
    (h : a = "-e" ∨ a = "--exclude" ∨ a = "-t" ∨ a = "--type") :
    get_args_loop st [a] = .error (.missingValue a) := by
  rcases h with h | h | h | h <;> subst h <;> simp [get_args_loop, startsWithDash]

theorem loop_exclude (st : ParseState) {a : String} (v : String) (rest : List String)
    (h : a = "-e" ∨ a = "--exclude") :
    get_args_loop st (a :: v :: rest) =
      get_args_loop ⟨st.args ++ [⟨true, a, v⟩], true, v⟩ rest := by
  rcases h with h | h <;> subst h <;> simp [get_args_loop, startsWithDash]

theorem loop_type_invalid (st : ParseState) {a v : String} (rest : List String)
    (h : a = "-t" ∨ a = "--type")
    (hv : v ≠ "directory" ∧ v ≠ "d" ∧ v ≠ "file" ∧ v ≠ "f") :
    get_args_loop st (a :: v :: rest) = .error .invalidType := by
  rcases h with h | h <;> subst h <;> simp [get_args_loop, startsWithDash, hv]

theorem loop_type_valid (st : ParseState) {a v : String} (rest : List String)
    (h : a = "-t" ∨ a = "--type")
    (hv : v = "directory" ∨ v = "d" ∨ v = "file" ∨ v = "f") :
    get_args_loop st (a :: v :: rest) =
      get_args_loop ⟨st.args ++ [⟨true, a, v⟩], true, v⟩ rest := by
  rcases h with h | h <;> subst h <;> rcases hv with hv | hv | hv | hv <;> subst hv <;>
    simp [get_args_loop, startsWithDash]

/-- Every token falls in exactly one branch of the loop body. -/
theorem token_cases (a : String) :
    startsWithDash a = false ∨
    (startsWithDash a = true ∧
      (a ≠ "-h" ∧ a ≠ "--help" ∧ a ≠ "-e" ∧ a ≠ "--exclude" ∧ a ≠ "-t" ∧ a ≠ "--type")) ∨
    (a = "-h" ∨ a = "--help") ∨ (a = "-e" ∨ a = "--exclude") ∨ (a = "-t" ∨ a = "--type") := by
  by_cases hd : startsWithDash a = true
  · by_cases h1 : a = "-h"
    · exact Or.inr (Or.inr (Or.inl (Or.inl h1)))
    by_cases h2 : a = "--help"
    · exact Or.inr (Or.inr (Or.inl (Or.inr h2)))
    by_cases h3 : a = "-e"
    · exact Or.inr (Or.inr (Or.inr (Or.inl (Or.inl h3))))
    by_cases h4 : a = "--exclude"
    · exact Or.inr (Or.inr (Or.inr (Or.inl (Or.inr h4))))
    by_cases h5 : a = "-t"
    · exact Or.inr (Or.inr (Or.inr (Or.inr (Or.inl h5))))
    by_cases h6 : a = "--type"
    · exact Or.inr (Or.inr (Or.inr (Or.inr (Or.inr h6))))
    exact Or.inr (Or.inl ⟨hd, h1, h2, h3, h4, h5, h6⟩)
  · left
    simpa using hd

theorem valid_type_cases (v : String) :
    (v = "directory" ∨ v = "d" ∨ v = "file" ∨ v = "f") ∨
    (v ≠ "directory" ∧ v ≠ "d" ∧ v ≠ "file" ∧ v ≠ "f") := by
  by_cases h1 : v = "directory"
  · exact Or.inl (Or.inl h1)
  by_cases h2 : v = "d"
  · exact Or.inl (Or.inr (Or.inl h2))
  by_cases h3 : v = "file"
  · exact Or.inl (Or.inr (Or.inr (Or.inl h3)))
  by_cases h4 : v = "f"
  · exact Or.inl (Or.inr (Or.inr (Or.inr h4)))
  exact Or.inr ⟨h1, h2, h3, h4⟩

/-- Induction along the run of the loop: one case per branch of its body. -/
theorem loop_induction {P : ParseState → List String → Prop}
    (nil : ∀ st, P st [])
    (bare : ∀ st a rest, startsWithDash a = false →
      P ⟨st.args ++ [⟨st.option, a, st.option_value⟩], st.option, st.option_value⟩ rest →
      P st (a :: rest))
    (unknown : ∀ st a rest, startsWithDash a = true →
      (a ≠ "-h" ∧ a ≠ "--help" ∧ a ≠ "-e" ∧ a ≠ "--exclude" ∧ a ≠ "-t" ∧ a ≠ "--type") →
      P st (a :: rest))
    (help : ∀ st a rest, (a = "-h" ∨ a = "--help") → P st (a :: rest))
    (value_nil : ∀ st a, (a = "-e" ∨ a = "--exclude" ∨ a = "-t" ∨ a = "--type") → P st [a])
    (exclude : ∀ st a v rest, (a = "-e" ∨ a = "--exclude") →
      P ⟨st.args ++ [⟨true, a, v⟩], true, v⟩ rest → P st (a :: v :: rest))
    (type_invalid : ∀ st a v rest, (a = "-t" ∨ a = "--type") →
      (v ≠ "directory" ∧ v ≠ "d" ∧ v ≠ "file" ∧ v ≠ "f") → P st (a :: v :: rest))
    (type_valid : ∀ st a v rest, (a = "-t" ∨ a = "--type") →
      (v = "directory" ∨ v = "d" ∨ v = "file" ∨ v = "f") →
      P ⟨st.args ++ [⟨true, a, v⟩], true, v⟩ rest → P st (a :: v :: rest)) :
    ∀ st ts, P st ts := by
  suffices H : ∀ (n : Nat) (st : ParseState) (ts : List String), ts.length = n → P st ts from
    fun st ts => H ts.length st ts rfl
  intro n
  induction n using Nat.strong_induction_on with
  | _ n ih =>
    intro st ts h
    subst h
    match ts with
    | [] => exact nil st
    | a :: rest =>
      rcases token_cases a with hb | ⟨hd, hu⟩ | hh | he | ht
      · exact bare st a rest hb (ih _ (by simp) _ _ rfl)
      · exact unknown st a rest hd hu
      · exact help st a rest hh
      · match rest with
        | [] => exact value_nil st a (by tauto)
        | v :: rest' => exact exclude st a v rest' he (ih _ (by simp; omega) _ _ rfl)
      · match rest with
        | [] => exact value_nil st a (by tauto)
        | v :: rest' =>
          rcases valid_type_cases v with hv | hv
          · exact type_valid st a v rest' ht hv (ih _ (by simp; omega) _ _ rfl)
          · exact type_invalid st a v rest' ht hv

/-! ## Reading a command line in two parts -/

/-- A prefix that is read to its end leaves the loop in a state from which the
rest of the command line is read. -/
theorem loop_append_ok (rest : List String) :
    ∀ (st : ParseState) (pre : List String) (st1 : ParseState),
      get_args_loop st pre = .ok st1 →
      get_args_loop st (pre ++ rest) = get_args_loop st1 rest := by
  intro st pre
  induction st, pre using loop_induction with
  | nil st => intro st1 h; rw [loop_nil] at h; cases h; rfl
  | bare st a rest' hb ih =>
    intro st1 h
    rw [loop_bare st rest' hb] at h
    rw [List.cons_append, loop_bare st _ hb]
    exact ih st1 h
  | unknown st a rest' hd hu => intro st1 h; rw [loop_unknown st rest' hd hu] at h; cases h
  | help st a rest' hh => intro st1 h; rw [loop_help st rest' hh] at h; cases h
  | value_nil st a hv => intro st1 h; rw [loop_value_nil st hv] at h; cases h
  | exclude st a v rest' he ih =>
    intro st1 h
    rw [loop_exclude st v rest' he] at h
    rw [List.cons_append, List.cons_append, loop_exclude st v _ he]
    exact ih st1 h
  | type_invalid st a v rest' ht hv =>
    intro st1 h; rw [loop_type_invalid st rest' ht hv] at h; cases h
  | type_valid st a v rest' ht hv ih =>
    intro st1 h
    rw [loop_type_valid st rest' ht hv] at h
    rw [List.cons_append, List.cons_append, loop_type_valid st _ ht hv]
    exact ih st1 h

/-- An exit that is not the missing-value exit does not depend on what follows. -/
theorem loop_append_error (rest : List String) :
    ∀ (st : ParseState) (pre : List String) (e : Exit),
      get_args_loop st pre = .error e → (∀ o, e ≠ .missingValue o) →
      get_args_loop st (pre ++ rest) = .error e := by
  intro st pre
  induction st, pre using loop_induction with
  | nil st => intro e h; rw [loop_nil] at h; cases h
  | bare st a rest' hb ih =>
    intro e h hne
    rw [loop_bare st rest' hb] at h
    rw [List.cons_append, loop_bare st _ hb]
    exact ih e h hne
  | unknown st a rest' hd hu =>
    intro e h _
    rw [loop_unknown st rest' hd hu] at h
    rw [List.cons_append, loop_unknown st _ hd hu]
    exact h
  | help st a rest' hh =>
    intro e h _
    rw [loop_help st rest' hh] at h
    rw [List.cons_append, loop_help st _ hh]
    exact h
  | value_nil st a hv =>
    intro e h hne
    rw [loop_value_nil st hv] at h
    cases h
    exact absurd rfl (hne a)
  | exclude st a v rest' he ih =>
    intro e h hne
    rw [loop_exclude st v rest' he] at h
    rw [List.cons_append, List.cons_append, loop_exclude st v _ he]
    exact ih e h hne
  | type_invalid st a v rest' ht hv =>
    intro e h _
    rw [loop_type_invalid st rest' ht hv] at h
    rw [List.cons_append, List.cons_append, loop_type_invalid st _ ht hv]
    exact h
  | type_valid st a v rest' ht hv ih =>
    intro e h hne
    rw [loop_type_valid st rest' ht hv] at h
    rw [List.cons_append, List.cons_append, loop_type_valid st _ ht hv]
    exact ih e h hne

/-- A prefix that stops at a `-t`/`--type` without value: any following token
that is no valid type ends the run with the invalid-type exit. -/
theorem loop_append_missing_type (v : String) (rest : List String)
    (hv : v ≠ "directory" ∧ v ≠ "d" ∧ v ≠ "file" ∧ v ≠ "f") :
    ∀ (st : ParseState) (pre : List String) (o : String),
      get_args_loop st pre = .error (.missingValue o) → (o = "-t" ∨ o = "--type") →
      get_args_loop st (pre ++ v :: rest) = .error .invalidType := by
  intro st pre
  induction st, pre using loop_induction with
  | nil st => intro o h; rw [loop_nil] at h; cases h
  | bare st a rest' hb ih =>
    intro o h ho
    rw [loop_bare st rest' hb] at h
    rw [List.cons_append, loop_bare st _ hb]
    exact ih o h ho
  | unknown st a rest' hd hu => intro o h; rw [loop_unknown st rest' hd hu] at h; cases h
  | help st a rest' hh => intro o h; rw [loop_help st rest' hh] at h; cases h
  | value_nil st a ha =>
    intro o h ho
    rw [loop_value_nil st ha] at h
    cases h
    exact loop_type_invalid st rest ho hv
  | exclude st a v' rest' he ih =>
    intro o h ho
    rw [loop_exclude st v' rest' he] at h
    rw [List.cons_append, List.cons_append, loop_exclude st v' _ he]
    exact ih o h ho
  | type_invalid st a v' rest' ht hv' =>
    intro o h; rw [loop_type_invalid st rest' ht hv'] at h; cases h
  | type_valid st a v' rest' ht hv' ih =>
    intro o h ho
    rw [loop_type_valid st rest' ht hv'] at h
    rw [List.cons_append, List.cons_append, loop_type_valid st _ ht hv']
    exact ih o h ho

/-- The missing-value exit names a value-bearing option. -/
theorem loop_missing_value_option :
    ∀ (st : ParseState) (ts : List String) (o : String),
      get_args_loop st ts = .error (.missingValue o) →
      (o = "-e" ∨ o = "--exclude") ∨ (o = "-t" ∨ o = "--type") := by
  intro st ts
  induction st, ts using loop_induction with
  | nil st => intro o h; rw [loop_nil] at h; cases h
  | bare st a rest' hb ih => intro o h; rw [loop_bare st rest' hb] at h; exact ih o h
  | unknown st a rest' hd hu => intro o h; rw [loop_unknown st rest' hd hu] at h; cases h
  | help st a rest' hh => intro o h; rw [loop_help st rest' hh] at h; cases h
  | value_nil st a ha =>
    intro o h
    rw [loop_value_nil st ha] at h
    cases h
    tauto
  | exclude st a v rest' he ih => intro o h; rw [loop_exclude st v rest' he] at h; exact ih o h
  | type_invalid st a v rest' ht hv =>
    intro o h; rw [loop_type_invalid st rest' ht hv] at h; cases h
  | type_valid st a v rest' ht hv ih =>
    intro o h; rw [loop_type_valid st rest' ht hv] at h; exact ih o h

/-! ## `get_args` in terms of its loop -/

theorem get_args_ok_iff (ts : List String) (args : List Arg) :
    get_args ts = .ok args ↔
      ∃ st, get_args_loop ParseState.init ts = .ok st ∧ st.args = args := by
  unfold get_args
  cases h : get_args_loop ParseState.init ts with
  | ok st => simp
  | error e => simp

theorem get_args_error_iff (ts : List String) (e : Exit) :
    get_args ts = .error e ↔ get_args_loop ParseState.init ts = .error e := by
  unfold get_args
  cases h : get_args_loop ParseState.init ts with
  | ok st => simp
  | error e1 => simp

theorem get_args_of_loop_ok {ts : List String} {st : ParseState}
    (h : get_args_loop ParseState.init ts = .ok st) : get_args ts = .ok st.args := by
  unfold get_args; rw [h]

theorem get_args_of_loop_error {ts : List String} {e : Exit}
    (h : get_args_loop ParseState.init ts = .error e) : get_args ts = .error e := by
  unfold get_args; rw [h]

/-- The three ways a prefix of the command line can be read. -/
theorem get_args_prefix_cases (pre : List String) :
    (∃ st, get_args_loop ParseState.init pre = .ok st) ∨
    (∃ o, get_args_loop ParseState.init pre = .error (.missingValue o)) ∨
    (∃ e, get_args_loop ParseState.init pre = .error e ∧ ∀ o, e ≠ .missingValue o) := by
  cases h : get_args_loop ParseState.init pre with
  | ok st => exact Or.inl ⟨st, rfl⟩
  | error e =>
    cases e with
    | missingValue o => exact Or.inr (Or.inl ⟨o, rfl⟩)
    | unknownOption a => exact Or.inr (Or.inr ⟨_, rfl, fun o h => by cases h⟩)
    | help => exact Or.inr (Or.inr ⟨_, rfl, fun o h => by cases h⟩)
    | invalidType => exact Or.inr (Or.inr ⟨_, rfl, fun o h => by cases h⟩)

/-- A token examined as an option after a prefix: either the prefix already
ended the run with an exit that is kept, or it ended with a `-t`/`--type`
waiting for its value, or the token is examined from some state. -/
theorem get_args_examined (pre : List String) (a : String) (post : List String)
    (hv : a ≠ "directory" ∧ a ≠ "d" ∧ a ≠ "file" ∧ a ≠ "f")
    (hc : get_args pre ≠ .error (.missingValue "-e") ∧
      get_args pre ≠ .error (.missingValue "--exclude")) :
    (∃ st, get_args_loop ParseState.init pre = .ok st ∧
      get_args_loop ParseState.init (pre ++ a :: post) = get_args_loop st (a :: post)) ∨
    (get_args (pre ++ a :: post) = .error .invalidType) ∨
    (∃ e, get_args pre = .error e ∧ (∀ o, e ≠ .missingValue o) ∧
      get_args (pre ++ a :: post) = .error e) := by
  rcases get_args_prefix_cases pre with ⟨st, h⟩ | ⟨o, h⟩ | ⟨e, h, hne⟩
  · exact Or.inl ⟨st, h, loop_append_ok _ _ _ _ h⟩
  · right; left
    rcases loop_missing_value_option _ _ _ h with ho | ho
    · exfalso
      rcases ho with ho | ho <;> subst ho
      · exact hc.1 (get_args_of_loop_error h)
      · exact hc.2 (get_args_of_loop_error h)
    · exact get_args_of_loop_error (loop_append_missing_type a post hv _ _ _ h ho)
  · right; right
    exact ⟨e, get_args_of_loop_error h, hne,
      get_args_of_loop_error (loop_append_error _ _ _ _ h hne)⟩

/-! ## The arguments recorded by a successful run -/

/-- A successful run appends arguments to the vector; each new argument names a
token of the command line, and a recorded `-t`/`--type` carries a valid type. -/
theorem loop_args :
    ∀ (st : ParseState) (ts : List String) (st1 : ParseState),
      get_args_loop st ts = .ok st1 →
      ∃ new, st1.args = st.args ++ new ∧
        ∀ b ∈ new, b.arg ∈ ts ∧
          ((b.arg = "-t" ∨ b.arg = "--type") →
            (b.option_value = "directory" ∨ b.option_value = "d" ∨
              b.option_value = "file" ∨ b.option_value = "f")) := by
  intro st ts
  induction st, ts using loop_induction with
  | nil st => intro st1 h; rw [loop_nil] at h; cases h; exact ⟨[], by simp, by simp⟩
  | bare st a rest hb ih =>
    intro st1 h
    rw [loop_bare st rest hb] at h
    obtain ⟨new, hnew, hall⟩ := ih st1 h
    refine ⟨⟨st.option, a, st.option_value⟩ :: new, by simpa using hnew, ?_⟩
    intro b hbm
    rcases List.mem_cons.1 hbm with rfl | hbm
    · refine ⟨by simp, ?_⟩
      intro ht
      have := startsWithDash_of_known (a := a) (by simp at ht; tauto)
      rw [hb] at this; cases this
    · exact ⟨List.mem_cons_of_mem _ (hall b hbm).1, (hall b hbm).2⟩
  | unknown st a rest hd hu => intro st1 h; rw [loop_unknown st rest hd hu] at h; cases h
  | help st a rest hh => intro st1 h; rw [loop_help st rest hh] at h; cases h
  | value_nil st a hv => intro st1 h; rw [loop_value_nil st hv] at h; cases h
  | exclude st a v rest he ih =>
    intro st1 h
    rw [loop_exclude st v rest he] at h
    obtain ⟨new, hnew, hall⟩ := ih st1 h
    refine ⟨⟨true, a, v⟩ :: new, by simpa using hnew, ?_⟩
    intro b hbm
    rcases List.mem_cons.1 hbm with rfl | hbm
    · refine ⟨by simp, ?_⟩
      intro ht
      exfalso
      rcases he with he | he <;> subst he <;> simp at ht
    · exact ⟨List.mem_cons_of_mem _ (List.mem_cons_of_mem _ (hall b hbm).1), (hall b hbm).2⟩
  | type_invalid st a v rest ht hv =>
    intro st1 h; rw [loop_type_invalid st rest ht hv] at h; cases h
  | type_valid st a v rest ht hv ih =>
    intro st1 h
    rw [loop_type_valid st rest ht hv] at h
    obtain ⟨new, hnew, hall⟩ := ih st1 h
    refine ⟨⟨true, a, v⟩ :: new, by simpa using hnew, ?_⟩
    intro b hbm
    rcases List.mem_cons.1 hbm with rfl | hbm
    · exact ⟨by simp, fun _ => hv⟩
    · exact ⟨List.mem_cons_of_mem _ (List.mem_cons_of_mem _ (hall b hbm).1), (hall b hbm).2⟩

/-- The body of the loop of `get_file_type`. -/
theorem get_file_type_append (xs ys : List Arg) :
    get_file_type (xs ++ ys) =
      ys.foldl
        (fun file_type a =>
          if a.arg = "-t" ∨ a.arg = "--type" then
            if a.option_value = "directory" ∨ a.option_value = "d" then 'd'
            else if a.option_value = "file" ∨ a.option_value = "f" then 'f'
            else file_type
          else file_type)
        (get_file_type xs) := by
  unfold get_file_type
  rw [List.foldl_append]

/-- Arguments other than `-t`/`--type` leave the file type as it is. -/
theorem foldl_file_type_no_type (ys : List Arg) (c : Char)
    (h : ∀ b ∈ ys, b.arg ≠ "-t" ∧ b.arg ≠ "--type") :
    ys.foldl
        (fun file_type a =>
          if a.arg = "-t" ∨ a.arg = "--type" then
            if a.option_value = "directory" ∨ a.option_value = "d" then 'd'
            else if a.option_value = "file" ∨ a.option_value = "f" then 'f'
            else file_type
          else file_type)
        c = c := by
  induction ys generalizing c with
  | nil => rfl
  | cons b ys ih =>
    have hb := h b (by simp)
    rw [List.foldl_cons, if_neg (by tauto)]
    exact ih c (fun x hx => h x (List.mem_cons_of_mem _ hx))

theorem get_file_type_no_type (args : List Arg)
    (h : ∀ b ∈ args, b.arg ≠ "-t" ∧ b.arg ≠ "--type") : get_file_type args = 'a' :=
  foldl_file_type_no_type args 'a' h

/-- The file type after a last `-t`/`--type` argument with a valid value. -/
theorem get_file_type_last (pre : List Arg) (b : Arg) (post : List Arg)
    (hb : b.arg = "-t" ∨ b.arg = "--type")
    (hv : b.option_value = "directory" ∨ b.option_value = "d" ∨
      b.option_value = "file" ∨ b.option_value = "f")
    (hpost : ∀ c ∈ post, c.arg ≠ "-t" ∧ c.arg ≠ "--type") :
    ((b.option_value = "directory" ∨ b.option_value = "d") ∧
      get_file_type (pre ++ b :: post) = 'd') ∨
    ((b.option_value = "file" ∨ b.option_value = "f") ∧
      get_file_type (pre ++ b :: post) = 'f') := by
  rw [get_file_type_append, List.foldl_cons, foldl_file_type_no_type post _ hpost, if_pos hb]
  by_cases hdir : b.option_value = "directory" ∨ b.option_value = "d"
  · left; exact ⟨hdir, by rw [if_pos hdir]⟩
  · right
    have hf : b.option_value = "file" ∨ b.option_value = "f" := by tauto
    exact ⟨hf, by rw [if_neg hdir, if_pos hf]⟩

/-! ## Claims on the parser -/

/-- C1, evaluated on the tokens `-e x a b`: the positional tokens are `a` and
`b`, but `get_args` records both with `option = true` (the variable `option`
is set by `-e` and never reset), so `get_root_paths` finds no path and returns
the current working directory alone. -/
theorem get_root_paths_after_option (cwd : String) :
    specPositionalTokens ["-e", "x", "a", "b"] = ["a", "b"] ∧
    get_args ["-e", "x", "a", "b"] =
      .ok [⟨true, "-e", "x"⟩, ⟨true, "a", "x"⟩, ⟨true, "b", "x"⟩] ∧
    get_root_paths cwd [⟨true, "-e", "x"⟩, ⟨true, "a", "x"⟩, ⟨true, "b", "x"⟩] = [cwd] := by
  refine ⟨by rfl, by rfl, ?_⟩
  simp [get_root_paths]

/-- C2 as stated fails: `--bogus` starts with '-' and is no known option, yet
the tokens `-e --bogus` parse successfully, `--bogus` being the value of `-e`. -/
theorem get_args_unknown_option_counterexample :
    startsWithDash "--bogus" = true ∧
    ("--bogus" ≠ "-h" ∧ "--bogus" ≠ "--help" ∧ "--bogus" ≠ "-e" ∧ "--bogus" ≠ "--exclude"
      ∧ "--bogus" ≠ "-t" ∧ "--bogus" ≠ "--type") ∧
    "--bogus" ∈ ["-e", "--bogus"] ∧
    get_args ["-e", "--bogus"] = .ok [⟨true, "-e", "--bogus"⟩] := by
  refine ⟨by rfl, by decide, by simp, by rfl⟩

/-- C2, amended: when the command line holds a token `a` that starts with '-',
is no known option and is not consumed as the value of `-e`/`--exclude` (the
tokens before it do not end in an `-e`/`--exclude` waiting for its value),
parsing produces no configuration. It ends with a usage error, unless the
tokens before `a` already ended with the help exit; when the tokens before `a`
parse successfully, the error is the unknown-option error for `a`. -/
theorem get_args_unknown_option (pre : List String) (a : String) (post : List String)
    (hd : startsWithDash a = true)
    (hu : a ≠ "-h" ∧ a ≠ "--help" ∧ a ≠ "-e" ∧ a ≠ "--exclude" ∧ a ≠ "-t" ∧ a ≠ "--type")
    (hc : get_args pre ≠ .error (.missingValue "-e") ∧
      get_args pre ≠ .error (.missingValue "--exclude")) :
    ∃ e, get_args (pre ++ a :: post) = .error e ∧
      (e.isUsageError = true ∨ get_args pre = .error .help) ∧
      (∀ args, get_args pre = .ok args → e = .unknownOption a) := by
  rcases get_args_examined pre a post (not_valid_type_of_dash hd) hc with
    ⟨st, h, heq⟩ | h | ⟨e, he, hne, h⟩
  · rw [loop_unknown st post hd hu] at heq
    exact ⟨_, get_args_of_loop_error heq, Or.inl rfl, fun _ _ => rfl⟩
  · refine ⟨_, h, Or.inl rfl, ?_⟩
    intro args hok
    have h1 := loop_append_ok (a :: post) _ _ _ ((get_args_ok_iff _ _).1 hok).choose_spec.1
    rw [loop_unknown _ post hd hu] at h1
    rw [(get_args_error_iff _ _).1 h] at h1
    cases h1
  · refine ⟨e, h, ?_, ?_⟩
    · cases e with
      | help => exact Or.inr he
      | unknownOption _ => exact Or.inl rfl
      | missingValue _ => exact Or.inl rfl
      | invalidType => exact Or.inl rfl
    · intro args hok
      rw [hok] at he
      cases he

/-- C2, amended, at the tokens `a --bogus b`. -/
theorem get_args_unknown_option_witness :
    ∃ e, get_args (["a"] ++ "--bogus" :: ["b"]) = .error e ∧
      (e.isUsageError = true ∨ get_args ["a"] = .error .help) ∧
      (∀ args, get_args ["a"] = .ok args → e = .unknownOption "--bogus") :=
  get_args_unknown_option ["a"] "--bogus" ["b"] (by rfl) (by decide)
    ⟨by simp [get_args, get_args_loop, startsWithDash],
     by simp [get_args, get_args_loop, startsWithDash]⟩

/-- C3 as stated fails: the last token of `-e -e` is `-e`, yet the tokens parse
successfully, the second `-e` being the value of the first. -/
theorem get_args_missing_value_counterexample :
    ["-e", "-e"].getLast? = some "-e" ∧
    get_args ["-e", "-e"] = .ok [⟨true, "-e", "-e"⟩] := by
  refine ⟨by rfl, by rfl⟩

/-- C3, amended: when the last token `o` is `-e`, `--exclude`, `-t` or `--type`
and is not consumed as the value of `-e`/`--exclude` (the tokens before it do
not end in an `-e`/`--exclude` waiting for its value), parsing produces no
configuration. It ends with a usage error, unless the tokens before `o` already
ended with the help exit; when the tokens before `o` parse successfully, the
error is the missing-value error for `o`. -/
theorem get_args_missing_value (pre : List String) (o : String)
    (ho : o = "-e" ∨ o = "--exclude" ∨ o = "-t" ∨ o = "--type")
    (hc : get_args pre ≠ .error (.missingValue "-e") ∧
      get_args pre ≠ .error (.missingValue "--exclude")) :
    ∃ e, get_args (pre ++ [o]) = .error e ∧
      (e.isUsageError = true ∨ get_args pre = .error .help) ∧
      (∀ args, get_args pre = .ok args → e = .missingValue o) := by
  have hd : startsWithDash o = true := startsWithDash_of_known (by tauto)
  rcases get_args_examined pre o [] (not_valid_type_of_dash hd) hc with
    ⟨st, h, heq⟩ | h | ⟨e, he, hne, h⟩
  · rw [loop_value_nil st ho] at heq
    exact ⟨_, get_args_of_loop_error heq, Or.inl rfl, fun _ _ => rfl⟩
  · refine ⟨_, h, Or.inl rfl, ?_⟩
    intro args hok
    have h1 := loop_append_ok [o] _ _ _ ((get_args_ok_iff _ _).1 hok).choose_spec.1
    rw [loop_value_nil _ ho] at h1
    rw [(get_args_error_iff _ _).1 h] at h1
    cases h1
  · refine ⟨e, h, ?_, ?_⟩
    · cases e with
      | help => exact Or.inr he
      | unknownOption _ => exact Or.inl rfl
      | missingValue _ => exact Or.inl rfl
      | invalidType => exact Or.inl rfl
    · intro args hok
      rw [hok] at he
      cases he

/-- C3, amended, at the tokens `a -t`. -/
theorem get_args_missing_value_witness :
    ∃ e, get_args (["a"] ++ ["-t"]) = .error e ∧
      (e.isUsageError = true ∨ get_args ["a"] = .error .help) ∧
      (∀ args, get_args ["a"] = .ok args → e = .missingValue "-t") :=
  get_args_missing_value ["a"] "-t" (by decide)
    ⟨by simp [get_args, get_args_loop, startsWithDash],
     by simp [get_args, get_args_loop, startsWithDash]⟩

/-- C4: after a successful parse, the file type is `'a'` (all entries) when no
`-t`/`--type` option was recorded, and otherwise is fixed by the value of the
last recorded `-t`/`--type` option alone: `directory` or `d` gives `'d'`,
`file` or `f` gives `'f'`. On the tokens: without any `-t`/`--type` token the
type is `'a'`, and after a `-t`/`--type` option with value `v` that no further
`-t`/`--type` token follows, the type is the one named by `v`. -/
theorem get_file_type_last_wins (ts : List String) (args : List Arg)
    (h : get_args ts = .ok args) :
    ((∀ b ∈ args, b.arg ≠ "-t" ∧ b.arg ≠ "--type") → get_file_type args = 'a') ∧
    (∀ pre b post, args = pre ++ b :: post → (b.arg = "-t" ∨ b.arg = "--type") →
      (∀ c ∈ post, c.arg ≠ "-t" ∧ c.arg ≠ "--type") →
        ((b.option_value = "directory" ∨ b.option_value = "d") ∧ get_file_type args = 'd') ∨
        ((b.option_value = "file" ∨ b.option_value = "f") ∧ get_file_type args = 'f')) ∧
    ((∀ t ∈ ts, t ≠ "-t" ∧ t ≠ "--type") → get_file_type args = 'a') ∧
    (∀ pre o v post, ts = pre ++ [o, v] ++ post → (∃ args0, get_args pre = .ok args0) →
      (o = "-t" ∨ o = "--type") → (∀ t ∈ post, t ≠ "-t" ∧ t ≠ "--type") →
        ((v = "directory" ∨ v = "d") ∧ get_file_type args = 'd') ∨
        ((v = "file" ∨ v = "f") ∧ get_file_type args = 'f')) := by
  obtain ⟨st, hst, rfl⟩ := (get_args_ok_iff _ _).1 h
  obtain ⟨new, hnew, hall⟩ := loop_args _ _ _ hst
  have hargs : st.args = new := by simpa [ParseState.init] using hnew
  refine ⟨get_file_type_no_type _, ?_, ?_, ?_⟩
  · intro pre b post heq hb hpost
    rw [heq]
    refine get_file_type_last pre b post hb ?_ hpost
    exact (hall b (by rw [← hargs, heq]; simp)).2 hb
  · intro hts
    apply get_file_type_no_type
    intro b hbm
    rw [hargs] at hbm
    exact hts _ (hall b hbm).1
  · rintro pre o v post rfl ⟨args0, h0⟩ ho hpost
    obtain ⟨st0, hst0, -⟩ := (get_args_ok_iff _ _).1 h0
    have h1 : get_args_loop ParseState.init (pre ++ [o, v] ++ post)
        = get_args_loop st0 (o :: v :: post) := by
      rw [List.append_assoc]
      exact loop_append_ok _ _ _ _ hst0
    rw [h1] at hst
    rcases valid_type_cases v with hv | hv
    · rw [loop_type_valid st0 post ho hv] at hst
      obtain ⟨new1, hnew1, hall1⟩ := loop_args _ _ _ hst
      have hst_args : st.args = st0.args ++ (⟨true, o, v⟩ : Arg) :: new1 := by
        simpa using hnew1
      rw [hst_args]
      exact get_file_type_last st0.args ⟨true, o, v⟩ new1 ho hv
        (fun c hc => hpost _ (hall1 c hc).1)
    · rw [loop_type_invalid st0 post ho hv] at hst
      cases hst

/-- C4 at the tokens `-t d a --type f`: the last option, `--type f`, decides. -/
theorem get_file_type_last_wins_witness :
    get_args ["-t", "d", "a", "--type", "f"] =
      .ok [⟨true, "-t", "d"⟩, ⟨true, "a", "d"⟩, ⟨true, "--type", "f"⟩] ∧
    get_file_type [⟨true, "-t", "d"⟩, ⟨true, "a", "d"⟩, ⟨true, "--type", "f"⟩] = 'f' := by
  refine ⟨by rfl, ?_⟩
  rcases (get_file_type_last_wins ["-t", "d", "a", "--type", "f"]
      [⟨true, "-t", "d"⟩, ⟨true, "a", "d"⟩, ⟨true, "--type", "f"⟩] (by rfl)).2.1
      [⟨true, "-t", "d"⟩, ⟨true, "a", "d"⟩] ⟨true, "--type", "f"⟩ [] rfl
      (by simp) (by simp) with ⟨hd, _⟩ | ⟨_, hf⟩
  · simp at hd
  · exact hf

/-- C5: after tokens that parse successfully, a `-t`/`--type` followed by a
token that is none of `directory`, `d`, `file`, `f` ends the run with the
invalid-type error, whatever that token looks like and whatever follows. -/
theorem get_args_invalid_type (ts : List String) (args : List Arg)
    (h : get_args ts = .ok args) (o v : String) (rest : List String)
    (ho : o = "-t" ∨ o = "--type")
    (hv : v ≠ "directory" ∧ v ≠ "d" ∧ v ≠ "file" ∧ v ≠ "f") :
    get_args (ts ++ [o, v] ++ rest) = .error .invalidType := by
  obtain ⟨st, hst, -⟩ := (get_args_ok_iff _ _).1 h
  apply get_args_of_loop_error
  rw [List.append_assoc, loop_append_ok _ _ _ _ hst]
  exact loop_type_invalid st rest ho hv

/-- C5 at the tokens `a -t -h b`. -/
theorem get_args_invalid_type_witness :
    get_args (["a"] ++ ["-t", "-h"] ++ ["b"]) = .error .invalidType :=
  get_args_invalid_type ["a"] [⟨false, "a", ""⟩] (by rfl) "-t" "-h" ["b"]
    (by decide) (by decide)

/-- The loop of `get_root_paths` ignores arguments recorded as options. -/
theorem get_root_paths_append_option (cwd : String) (args : List Arg) (a v : String) :
    get_root_paths cwd (args ++ [⟨true, a, v⟩]) = get_root_paths cwd args := by
  simp [get_root_paths, List.filter_append]

/-- C6: after tokens that parse successfully, `-e v` or `--exclude v` parses
successfully for every token `v`; `v` is appended to the excluded substrings,
and the root paths and the file type are those of the tokens before. -/
theorem get_args_exclude_value (cwd : String) (ts : List String) (args : List Arg)
    (h : get_args ts = .ok args) (o v : String) (ho : o = "-e" ∨ o = "--exclude") :
    ∃ args1, get_args (ts ++ [o, v]) = .ok args1 ∧
      get_excluded_paths args1 = get_excluded_paths args ++ [v] ∧
      get_root_paths cwd args1 = get_root_paths cwd args ∧
      get_file_type args1 = get_file_type args := by
  obtain ⟨st, hst, rfl⟩ := (get_args_ok_iff _ _).1 h
  have hrun : get_args_loop ParseState.init (ts ++ [o, v])
      = .ok ⟨st.args ++ [⟨true, o, v⟩], true, v⟩ := by
    rw [loop_append_ok _ _ _ _ hst, loop_exclude st v [] ho, loop_nil]
  refine ⟨st.args ++ [⟨true, o, v⟩], get_args_of_loop_ok hrun, ?_,
    get_root_paths_append_option cwd st.args o v, ?_⟩
  · unfold get_excluded_paths
    rw [List.filter_append, List.map_append]
    congr 1
    rcases ho with ho | ho <;> subst ho <;> simp
  · rw [get_file_type_append, List.foldl_cons, List.foldl_nil, if_neg]
    rcases ho with ho | ho <;> subst ho <;> simp

/-- C6 at the tokens `a -t f` followed by `-e -h`. -/
theorem get_args_exclude_value_witness :
    ∃ args1, get_args (["a", "-t", "f"] ++ ["-e", "-h"]) = .ok args1 ∧
      get_excluded_paths args1
        = get_excluded_paths [⟨false, "a", ""⟩, ⟨true, "-t", "f"⟩] ++ ["-h"] ∧
      get_root_paths "/home" args1
        = get_root_paths "/home" [⟨false, "a", ""⟩, ⟨true, "-t", "f"⟩] ∧
      get_file_type args1 = get_file_type [⟨false, "a", ""⟩, ⟨true, "-t", "f"⟩] :=
  get_args_exclude_value "/home" ["a", "-t", "f"] [⟨false, "a", ""⟩, ⟨true, "-t", "f"⟩]
    (by rfl) "-e" "-h" (by decide)

/-- Tokens without a leading '-' are all recorded with the current `option`
and `option_value`. -/
theorem loop_all_bare (ts : List String) :
    ∀ (st : ParseState), (∀ t ∈ ts, startsWithDash t = false) →
      get_args_loop st ts =
        .ok ⟨st.args ++ ts.map (fun t => ⟨st.option, t, st.option_value⟩),
          st.option, st.option_value⟩ := by
  induction ts with
  | nil => intro st _; rw [loop_nil]; simp
  | cons t ts ih =>
    intro st h
    rw [loop_bare st ts (h t (by simp)), ih _ (fun x hx => h x (List.mem_cons_of_mem _ hx))]
    simp

/-- C7: a non-empty command line without any token starting with '-' parses
successfully; the root paths are the tokens themselves, in order, nothing is
excluded and the file type is `'a'` (all entries). -/
theorem get_args_paths_only (cwd : String) (ts : List String) (hne : ts ≠ [])
    (h : ∀ t ∈ ts, startsWithDash t = false) :
    ∃ args, get_args ts = .ok args ∧ get_root_paths cwd args = ts ∧
      get_excluded_paths args = [] ∧ get_file_type args = 'a' := by
  have hrun := loop_all_bare ts ParseState.init h
  have hnot : ∀ t ∈ ts, t ≠ "-h" ∧ t ≠ "--help" ∧ t ≠ "-e" ∧ t ≠ "--exclude"
      ∧ t ≠ "-t" ∧ t ≠ "--type" := by
    intro t ht
    have hb := h t ht
    refine ⟨?_, ?_, ?_, ?_, ?_, ?_⟩ <;> rintro rfl <;> simp [startsWithDash] at hb
  refine ⟨_, get_args_of_loop_ok hrun, ?_, ?_, ?_⟩
  · have hfilter : List.filter (fun a : Arg => !a.option)
        (ts.map (fun t => (⟨false, t, ""⟩ : Arg))) = ts.map (fun t => ⟨false, t, ""⟩) := by
      rw [List.filter_eq_self]
      intro a ha
      obtain ⟨t, -, rfl⟩ := List.mem_map.1 ha
      rfl
    have hlen : ¬ ts.length < 1 := by
      cases ts with
      | nil => exact absurd rfl hne
      | cons t ts => simp
    simp only [get_root_paths, ParseState.init, List.nil_append, hfilter, List.map_map,
      List.length_map, hlen, if_false]
    exact List.map_id _
  · simp only [get_excluded_paths, ParseState.init, List.nil_append]
    rw [List.map_eq_nil_iff, List.filter_eq_nil_iff]
    intro a ha
    obtain ⟨t, ht, rfl⟩ := List.mem_map.1 ha
    have := hnot t ht
    simp only [decide_eq_true_eq]
    tauto
  · apply get_file_type_no_type
    intro a ha
    simp only [ParseState.init, List.nil_append] at ha
    obtain ⟨t, ht, rfl⟩ := List.mem_map.1 ha
    have := hnot t ht
    exact ⟨this.2.2.2.2.1, this.2.2.2.2.2⟩

/-- C7 at the tokens `a b`. -/
theorem get_args_paths_only_witness :
    ∃ args, get_args ["a", "b"] = .ok args ∧ get_root_paths "/home" args = ["a", "b"] ∧
      get_excluded_paths args = [] ∧ get_file_type args = 'a' :=
  get_args_paths_only "/home" ["a", "b"] (by simp) (by
    intro t ht
    simp only [List.mem_cons, List.mem_singleton, List.not_mem_nil, or_false] at ht
    rcases ht with rfl | rfl <;> rfl)

/-! ### Command lines without positional tokens -/

theorem specPositionalTokens_bare {a : String} (rest : List String)
    (h : startsWithDash a = false) :
    specPositionalTokens (a :: rest) = a :: specPositionalTokens rest := by
  have hk : ¬ (a = "-e" ∨ a = "--exclude" ∨ a = "-t" ∨ a = "--type") := by
    intro hk
    have := startsWithDash_of_known (a := a) (by tauto)
    rw [h] at this; cases this
  cases rest <;> simp [specPositionalTokens, hk, h]

theorem specPositionalTokens_value {a : String} (v : String) (rest : List String)
    (h : a = "-e" ∨ a = "--exclude" ∨ a = "-t" ∨ a = "--type") :
    specPositionalTokens (a :: v :: rest) = specPositionalTokens rest := by
  rw [specPositionalTokens, if_pos h]

/-- A successful run on tokens none of which is positional records no argument
with `option = false`. -/
theorem loop_no_positional :
    ∀ (st : ParseState) (ts : List String) (st1 : ParseState),
      get_args_loop st ts = .ok st1 → specPositionalTokens ts = [] →
      st1.args.filter (fun a => !a.option) = st.args.filter (fun a => !a.option) := by
  intro st ts
  induction st, ts using loop_induction with
  | nil st => intro st1 h _; rw [loop_nil] at h; cases h; rfl
  | bare st a rest hb ih =>
    intro st1 _ hp
    rw [specPositionalTokens_bare rest hb] at hp
    cases hp
  | unknown st a rest hd hu => intro st1 h; rw [loop_unknown st rest hd hu] at h; cases h
  | help st a rest hh => intro st1 h; rw [loop_help st rest hh] at h; cases h
  | value_nil st a hv => intro st1 h; rw [loop_value_nil st hv] at h; cases h
  | exclude st a v rest he ih =>
    intro st1 h hp
    rw [loop_exclude st v rest he] at h
    rw [specPositionalTokens_value v rest (by tauto)] at hp
    rw [ih st1 h hp]
    simp [List.filter_append]
  | type_invalid st a v rest ht hv =>
    intro st1 h; rw [loop_type_invalid st rest ht hv] at h; cases h
  | type_valid st a v rest ht hv ih =>
    intro st1 h hp
    rw [loop_type_valid st rest ht hv] at h
    rw [specPositionalTokens_value v rest (by tauto)] at hp
    rw [ih st1 h hp]
    simp [List.filter_append]

/-- C8: when the tokens parse successfully and none of them is a positional
path argument (each starts with '-' or is consumed as the value of an option),
the root paths are the current working directory alone. -/
theorem get_root_paths_default (cwd : String) (ts : List String) (args : List Arg)
    (h : get_args ts = .ok args) (hp : specPositionalTokens ts = []) :
    get_root_paths cwd args = [cwd] := by
  obtain ⟨st, hst, rfl⟩ := (get_args_ok_iff _ _).1 h
  have hf := loop_no_positional _ _ _ hst hp
  simp only [ParseState.init, List.filter_nil] at hf
  simp [get_root_paths, hf]

/-- C8 at the tokens `-e a -t d`. -/
theorem get_root_paths_default_witness :
    get_root_paths "/home" [⟨true, "-e", "a"⟩, ⟨true, "-t", "d"⟩] = ["/home"] :=
  get_root_paths_default "/home" ["-e", "a", "-t", "d"]
    [⟨true, "-e", "a"⟩, ⟨true, "-t", "d"⟩] (by rfl) (by rfl)

/-- C9: after a successful parse the root paths are never empty. -/
theorem get_root_paths_ne_nil (cwd : String) (ts : List String) (args : List Arg)
    (_h : get_args ts = .ok args) : get_root_paths cwd args ≠ [] := by
  unfold get_root_paths
  simp only
  split
  · simp
  · rename_i hlen
    intro hnil
    rw [hnil] at hlen
    simp at hlen

/-- C9 at the tokens `-t f`. -/
theorem get_root_paths_ne_nil_witness :
    get_root_paths "/home" [⟨true, "-t", "f"⟩] ≠ [] :=
  get_root_paths_ne_nil "/home" ["-t", "f"] [⟨true, "-t", "f"⟩] (by rfl)

/-- C10 as stated fails: the help exit of `-h` and the unknown-option exit of
`--bogus` have the same exit status. -/
theorem get_args_help_status_counterexample :
    ∃ e1 e2, get_args ["-h"] = .error e1 ∧ get_args ["--bogus"] = .error e2 ∧
      e2.isUsageError = true ∧ e1.status = e2.status :=
  ⟨.help, .unknownOption "--bogus", by rfl, by rfl, by rfl, by rfl⟩

/-- C10, amended: when `-h` or `--help` is met as an option (after tokens that
parse successfully), the run ends with the help exit whatever follows: it
produces no configuration, writes the usage text to the standard output and
nothing to the error stream, and exits with status 1. Every usage error exits
with the same status 1, writes nothing to the standard output and one
diagnostic line to the error stream. -/
theorem get_args_help (ts : List String) (args : List Arg) (h : get_args ts = .ok args)
    (o : String) (rest : List String) (ho : o = "-h" ∨ o = "--help") :
    get_args (ts ++ o :: rest) = .error .help ∧
    Exit.help.stdout = print_help ∧ Exit.help.stderr = [] ∧ Exit.help.status = 1 ∧
    (∀ e : Exit, e.isUsageError = true →
      e.status = Exit.help.status ∧ e.stdout = [] ∧ e.stderr.length = 1) := by
  obtain ⟨st, hst, -⟩ := (get_args_ok_iff _ _).1 h
  refine ⟨?_, rfl, rfl, rfl, ?_⟩
  · apply get_args_of_loop_error
    rw [loop_append_ok _ _ _ _ hst]
    exact loop_help st rest ho
  · intro e he
    cases e with
    | help => cases he
    | unknownOption _ => exact ⟨rfl, rfl, rfl⟩
    | missingValue _ => exact ⟨rfl, rfl, rfl⟩
    | invalidType => exact ⟨rfl, rfl, rfl⟩

/-- C10, amended, at the tokens `a --help b`. -/
theorem get_args_help_witness :
    get_args (["a"] ++ "--help" :: ["b"]) = .error .help ∧
    Exit.help.stdout = print_help ∧ Exit.help.stderr = [] ∧ Exit.help.status = 1 ∧
    (∀ e : Exit, e.isUsageError = true →
      e.status = Exit.help.status ∧ e.stdout = [] ∧ e.stderr.length = 1) :=
  get_args_help ["a"] [⟨false, "a", ""⟩] (by rfl) "--help" ["b"] (by decide)

/-! ## Exclusion -/

/-- The search finds a position exactly when the pattern occurs as a contiguous
block of the searched characters. -/
theorem find_from_ne_none_iff (pat : List Char) :
    ∀ (hay : List Char) (pos : Nat), find_from pat hay pos ≠ none ↔ pat <:+: hay := by
  intro hay
  induction hay with
  | nil =>
    intro pos
    rw [find_from]
    by_cases h : pat.isPrefixOf [] = true
    · rw [if_pos h]
      exact ⟨fun _ => (List.isPrefixOf_iff_prefix.1 h).isInfix, fun _ => by simp⟩
    · rw [if_neg h]
      refine ⟨fun hc => absurd rfl hc, fun hi => ?_⟩
      exfalso
      apply h
      rw [List.isPrefixOf_iff_prefix]
      rw [List.infix_nil] at hi
      rw [hi]
  | cons c cs ih =>
    intro pos
    rw [find_from, List.infix_cons_iff]
    by_cases h : pat.isPrefixOf (c :: cs) = true
    · rw [if_pos h]
      exact ⟨fun _ => Or.inl (List.isPrefixOf_iff_prefix.1 h), fun _ => by simp⟩
    · rw [if_neg h, ih (pos + 1)]
      constructor
      · exact fun hi => Or.inr hi
      · rintro (hp | hi)
        · exact absurd (List.isPrefixOf_iff_prefix.2 hp) h
        · exact hi

theorem string_find_ne_none_iff (s pat : String) :
    string_find s pat ≠ none ↔ pat.data <:+: s.data :=
  find_from_ne_none_iff pat.data s.data 0

/-- The loop of `is_path_excluded` returns true exactly when some exclusion
occurs in the path, both in generic format. -/
theorem is_path_excluded_eq_true_iff (sep : Char) (p : String) (ex : List String) :
    is_path_excluded sep p ex = true ↔
      ∃ e ∈ ex, (generic_string sep e).data <:+: (generic_string sep p).data := by
  induction ex with
  | nil => simp [is_path_excluded]
  | cons e ex ih =>
    rw [is_path_excluded]
    by_cases h : string_find (generic_string sep p) (generic_string sep e) ≠ none
    · rw [if_pos h]
      exact ⟨fun _ => ⟨e, by simp, (string_find_ne_none_iff _ _).1 h⟩, fun _ => rfl⟩
    · rw [if_neg h, ih]
      constructor
      · rintro ⟨x, hx, hi⟩
        exact ⟨x, List.mem_cons_of_mem _ hx, hi⟩
      · rintro ⟨x, hx, hi⟩
        rcases List.mem_cons.1 hx with rfl | hx
        · exact absurd ((string_find_ne_none_iff _ _).2 hi) h
        · exact ⟨x, hx, hi⟩

/-- Strings that differ only in the separator style have the same generic
format where the backslash is the preferred separator. -/
theorem generic_string_backslash_eq {p q : String} (h : sameUpToSeparators p q) :
    generic_string '\\' p = generic_string '\\' q := by
  unfold generic_string
  congr 1
  unfold sameUpToSeparators at h
  generalize p.data = xs at h
  generalize q.data = ys at h
  induction h with
  | nil => rfl
  | cons hab _ ih =>
    rw [List.map_cons, List.map_cons, ih]
    congr 1
    rcases hab with rfl | ⟨ha | ha, hb | hb⟩ <;> subst_vars <;> simp

/-! ## Claims on exclusion -/

/-- C11: `is_path_excluded p ex` is true exactly when some element of `ex`, in
generic format (separators normalised), occurs as a contiguous block of
characters anywhere in `p` in generic format; it is false for every `p` when
`ex` is empty. -/
theorem is_path_excluded_iff_infix (sep : Char) (p : String) (ex : List String) :
    (is_path_excluded sep p ex = true ↔
      ∃ e ∈ ex, ∃ before after : List Char,
        (generic_string sep p).data = before ++ (generic_string sep e).data ++ after) ∧
    is_path_excluded sep p [] = false := by
  refine ⟨?_, rfl⟩
  rw [is_path_excluded_eq_true_iff]
  constructor
  · rintro ⟨e, he, before, after, h⟩
    exact ⟨e, he, before, after, h.symm⟩
  · rintro ⟨e, he, before, after, h⟩
    exact ⟨e, he, before, after, h.symm⟩

/-- C12 as stated fails where '/' is the preferred separator (POSIX): there the
backslash is an ordinary character, and the exclusion `a/b` excludes
`root/a/b/c` but not the same path written with backslashes. -/
theorem is_path_excluded_separator_counterexample :
    sameUpToSeparators "root/a/b/c" "root\\a\\b\\c" ∧
    is_path_excluded '/' "root/a/b/c" ["a/b"] = true ∧
    is_path_excluded '/' "root\\a\\b\\c" ["a/b"] = false := by
  refine ⟨by unfold sameUpToSeparators; decide, by rfl, by rfl⟩

/-- C12, amended: on a platform whose preferred separator is the backslash
(where '/' and the backslash both separate directories), rewriting separators
of the path or of the exclusion between '/' and the backslash does not change
`is_path_excluded`. -/
theorem is_path_excluded_separator_insensitive (p q e f : String)
    (hp : sameUpToSeparators p q) (he : sameUpToSeparators e f) :
    is_path_excluded '\\' p [e] = is_path_excluded '\\' q [f] := by
  simp only [is_path_excluded, generic_string_backslash_eq hp, generic_string_backslash_eq he]

/-- C12, amended, at the exclusion `a/b` and the path `root\\a\\b\\c`. -/
theorem is_path_excluded_separator_insensitive_witness :
    is_path_excluded '\\' "root/a/b/c" ["a/b"]
      = is_path_excluded '\\' "root\\a\\b\\c" ["a\\b"] ∧
    is_path_excluded '\\' "root\\a\\b\\c" ["a/b"] = true :=
  ⟨is_path_excluded_separator_insensitive "root/a/b/c" "root\\a\\b\\c" "a/b" "a\\b"
      (by unfold sameUpToSeparators; decide) (by unfold sameUpToSeparators; decide),
    by rfl⟩

/-! ## Traversal -/

/-- The inner loop prints, in order, the entries that are not excluded and pass
the `switch`. -/
theorem print_entries_eq_filter (fsys : FileSystem) (sep : Char) (ex : List String)
    (ft : Char) (es : List String) :
    print_entries fsys sep ex ft es =
      es.filter (fun e => !is_path_excluded sep e ex && entry_printed fsys ft e) := by
  induction es with
  | nil => rfl
  | cons e es ih =>
    rw [print_entries, ih]
    by_cases hx : is_path_excluded sep e ex = true
    · rw [if_pos hx, List.filter_cons_of_neg (by simp [hx])]
    · rw [if_neg hx]
      by_cases hp : entry_printed fsys ft e = true
      · rw [if_pos hp, List.filter_cons_of_pos (by simp [hx, hp])]
      · rw [if_neg hp, List.filter_cons_of_neg (by simp [hp])]

theorem entry_printed_all (fsys : FileSystem) (e : String) :
    entry_printed fsys 'a' e = true := rfl

theorem entry_printed_directories (fsys : FileSystem) (e : String) :
    entry_printed fsys 'd' e = is_directory fsys e := by
  simp [entry_printed]

theorem entry_printed_files (fsys : FileSystem) (e : String) :
    entry_printed fsys 'f' e = is_regular_file fsys e := by
  simp [entry_printed]

/-- The test of line 168 on a directory returns true. -/
theorem is_directory_throwing_of_directory {fsys : FileSystem} {r : String}
    (h : is_directory fsys r = true) : is_directory_throwing fsys r = some true := by
  simp only [is_directory, decide_eq_true_eq] at h
  simp [is_directory_throwing, h]

/-- The test of line 168 on a path that has a status and is no directory
returns false. -/
theorem is_directory_throwing_of_not_directory {fsys : FileSystem} {r : String}
    (hs : fsys.status r ≠ file_type.none) (h : is_directory fsys r = false) :
    is_directory_throwing fsys r = some false := by
  simp only [is_directory, decide_eq_false_iff_not] at h
  simp [is_directory_throwing, hs, h]

/-- The test of line 168 on a path whose status cannot be read throws. -/
theorem is_directory_throwing_of_none {fsys : FileSystem} {r : String}
    (hs : fsys.status r = file_type.none) : is_directory_throwing fsys r = Option.none := by
  simp [is_directory_throwing, hs]

theorem main_loop_cons_directory (fsys : FileSystem) (sep : Char) (ex : List String)
    (ft : Char) (r : String) (rest out : List String) (h : is_directory fsys r = true) :
    main_loop fsys sep ex ft (r :: rest) out =
      main_loop fsys sep ex ft rest
        (out ++ print_entries fsys sep ex ft (fsys.recursive_directory_iterator r)) := by
  rw [main_loop, is_directory_throwing_of_directory h]
  simp

theorem main_loop_cons_not_directory (fsys : FileSystem) (sep : Char) (ex : List String)
    (ft : Char) (r : String) (rest out : List String)
    (hs : fsys.status r ≠ file_type.none) (h : is_directory fsys r = false) :
    main_loop fsys sep ex ft (r :: rest) out =
      ⟨out, ["Error: path '" ++ r ++ "' does not exist"], .exit 1⟩ := by
  rw [main_loop, is_directory_throwing_of_not_directory hs h]
  simp

theorem main_loop_cons_throws (fsys : FileSystem) (sep : Char) (ex : List String)
    (ft : Char) (r : String) (rest out : List String)
    (hs : fsys.status r = file_type.none) :
    main_loop fsys sep ex ft (r :: rest) out = ⟨out, [], .uncaught⟩ := by
  rw [main_loop, is_directory_throwing_of_none hs]

/-- The outer loop over roots that are all directories. -/
theorem main_loop_all_directories (fsys : FileSystem) (sep : Char) (ex : List String)
    (ft : Char) (roots : List String) :
    ∀ (out : List String), (∀ r ∈ roots, is_directory fsys r = true) →
      main_loop fsys sep ex ft roots out =
        ⟨out ++ roots.flatMap (fun r =>
            print_entries fsys sep ex ft (fsys.recursive_directory_iterator r)),
          [], .exit 0⟩ := by
  induction roots with
  | nil => intro out _; simp [main_loop]
  | cons r roots ih =>
    intro out h
    rw [main_loop_cons_directory fsys sep ex ft r roots out (h r (by simp)),
      ih _ (fun x hx => h x (List.mem_cons_of_mem _ hx)), List.flatMap_cons,
      List.append_assoc]

/-- The outer loop over roots that are directories, followed by more roots. -/
theorem main_loop_append_directories (fsys : FileSystem) (sep : Char) (ex : List String)
    (ft : Char) (pre : List String) (rest : List String) :
    ∀ (out : List String), (∀ x ∈ pre, is_directory fsys x = true) →
      main_loop fsys sep ex ft (pre ++ rest) out =
        main_loop fsys sep ex ft rest
          (out ++ pre.flatMap (fun x =>
            print_entries fsys sep ex ft (fsys.recursive_directory_iterator x))) := by
  induction pre with
  | nil => intro out _; simp
  | cons x pre ih =>
    intro out h
    rw [List.cons_append, main_loop_cons_directory fsys sep ex ft x _ out (h x (by simp)),
      ih _ (fun y hy => h y (List.mem_cons_of_mem _ hy)), List.flatMap_cons,
      List.append_assoc]

/-! ## Claims on the traversal -/

/-- C13 as stated fails: on the example tree the run for all entries prints
three lines, and the root itself is printed neither by that run nor by the run
for directories only, because the recursive iterator yields what lies below
the root. -/
theorem main_loop_example_counterexample :
    (main_loop (treeFS '/' "root" exampleTree) '/' [] 'a' ["root"] []).stdout
      = ["root/x", "root/x/y.txt", "root/z"] ∧
    "root" ∉ (main_loop (treeFS '/' "root" exampleTree) '/' [] 'a' ["root"] []).stdout ∧
    "root" ∉ (main_loop (treeFS '/' "root" exampleTree) '/' [] 'd' ["root"] []).stdout := by
  refine ⟨by rfl, by decide, by decide⟩

/-- C13, amended: on the tree `root/x/y.txt`, `root/z` (listed in this order)
with root path `root` and no exclusions, the run for files only prints exactly
`root/x/y.txt`, the run for directories only prints `root/x` and `root/z`, and
the run for all entries prints the three entries `root/x`, `root/x/y.txt` and
`root/z`; the root itself is never printed. The same holds for the command
lines `root --type file`, `root --type directory` and `root`. -/
theorem main_loop_example (cwd : String) :
    main_loop (treeFS '/' "root" exampleTree) '/' [] 'f' ["root"] []
      = ⟨["root/x/y.txt"], [], .exit 0⟩ ∧
    main_loop (treeFS '/' "root" exampleTree) '/' [] 'd' ["root"] []
      = ⟨["root/x", "root/z"], [], .exit 0⟩ ∧
    main_loop (treeFS '/' "root" exampleTree) '/' [] 'a' ["root"] []
      = ⟨["root/x", "root/x/y.txt", "root/z"], [], .exit 0⟩ ∧
    main (treeFS '/' "root" exampleTree) '/' cwd ["root", "--type", "file"]
      = ⟨["root/x/y.txt"], [], .exit 0⟩ ∧
    main (treeFS '/' "root" exampleTree) '/' cwd ["root", "--type", "directory"]
      = ⟨["root/x", "root/z"], [], .exit 0⟩ ∧
    main (treeFS '/' "root" exampleTree) '/' cwd ["root"]
      = ⟨["root/x", "root/x/y.txt", "root/z"], [], .exit 0⟩ := by
  refine ⟨by rfl, by rfl, by rfl, by rfl, by rfl, by rfl⟩

/-- C14: when all root paths are existing directories, the run ends normally
and its output is the concatenation, in the order of the roots, of the entries
of the recursive iteration of each root, in iteration order, that are not
excluded and pass the type filter: every entry for `'a'`, the directories for
`'d'`, the regular files for `'f'`. The iteration of a root does not depend on
the exclusions: they are tested entry by entry. -/
theorem main_loop_output (fsys : FileSystem) (sep : Char) (ex : List String)
    (roots : List String) (h : ∀ r ∈ roots, is_directory fsys r = true) :
    main_loop fsys sep ex 'a' roots [] =
      ⟨roots.flatMap (fun r => (fsys.recursive_directory_iterator r).filter
          (fun e => !is_path_excluded sep e ex)), [], .exit 0⟩ ∧
    main_loop fsys sep ex 'd' roots [] =
      ⟨roots.flatMap (fun r => (fsys.recursive_directory_iterator r).filter
          (fun e => !is_path_excluded sep e ex && is_directory fsys e)), [], .exit 0⟩ ∧
    main_loop fsys sep ex 'f' roots [] =
      ⟨roots.flatMap (fun r => (fsys.recursive_directory_iterator r).filter
          (fun e => !is_path_excluded sep e ex && is_regular_file fsys e)), [], .exit 0⟩ := by
  refine ⟨?_, ?_, ?_⟩
  · rw [main_loop_all_directories fsys sep ex 'a' roots [] h]
    simp only [print_entries_eq_filter, entry_printed_all, Bool.and_true, List.nil_append]
  · rw [main_loop_all_directories fsys sep ex 'd' roots [] h]
    simp only [print_entries_eq_filter, entry_printed_directories, List.nil_append]
  · rw [main_loop_all_directories fsys sep ex 'f' roots [] h]
    simp only [print_entries_eq_filter, entry_printed_files, List.nil_append]

/-- C14 on the example tree, scanned twice, with the exclusion `y`. -/
theorem main_loop_output_witness :
    main_loop (treeFS '/' "root" exampleTree) '/' ["y"] 'a' ["root", "root"] [] =
      ⟨["root", "root"].flatMap (fun r =>
          ((treeFS '/' "root" exampleTree).recursive_directory_iterator r).filter
            (fun e => !is_path_excluded '/' e ["y"])), [], .exit 0⟩ ∧
    (main_loop (treeFS '/' "root" exampleTree) '/' ["y"] 'a' ["root", "root"] []).stdout
      = ["root/x", "root/z", "root/x", "root/z"] :=
  ⟨(main_loop_output (treeFS '/' "root" exampleTree) '/' ["y"] ["root", "root"]
      (by decide)).1, by rfl⟩

/-- C15: the roots are scanned in order, and the run fails at the first root
path `r` that is no existing directory: its output is exactly what the roots
before `r` gave, and nothing is printed for `r` or for the roots after it,
whatever they are. When `r` has a status (it does not exist, or is no
directory), the run writes one diagnostic line and exits with status 1; when
the status of `r` cannot be read, the test of line 168 throws and the run is
aborted by the uncaught exception. In no case does the run end normally. When
the first root does not exist, the run exits with status 1 and prints
nothing. -/
theorem main_loop_missing_root (fsys : FileSystem) (sep : Char) (ex : List String)
    (ft : Char) (pre : List String) (r : String) (post : List String)
    (hpre : ∀ x ∈ pre, is_directory fsys x = true) (hr : is_directory fsys r = false) :
    (fsys.status r ≠ file_type.none →
      main_loop fsys sep ex ft (pre ++ r :: post) [] =
        ⟨pre.flatMap (fun x => (fsys.recursive_directory_iterator x).filter
            (fun e => !is_path_excluded sep e ex && entry_printed fsys ft e)),
          ["Error: path '" ++ r ++ "' does not exist"], .exit 1⟩) ∧
    (fsys.status r = file_type.none →
      main_loop fsys sep ex ft (pre ++ r :: post) [] =
        ⟨pre.flatMap (fun x => (fsys.recursive_directory_iterator x).filter
            (fun e => !is_path_excluded sep e ex && entry_printed fsys ft e)),
          [], .uncaught⟩) ∧
    (main_loop fsys sep ex ft (pre ++ r :: post) []).stdout
      = (main_loop fsys sep ex ft pre []).stdout ∧
    (main_loop fsys sep ex ft (pre ++ r :: post) []).ending ≠ .exit 0 ∧
    (pre = [] → (main_loop fsys sep ex ft (pre ++ r :: post) []).stdout = []) ∧
    (pre = [] → fsys.status r = file_type.other →
      main_loop fsys sep ex ft (pre ++ r :: post) [] =
        ⟨[], ["Error: path '" ++ r ++ "' does not exist"], .exit 1⟩) := by
  have hrun := main_loop_append_directories fsys sep ex ft pre (r :: post) [] hpre
  simp only [print_entries_eq_filter, List.nil_append] at hrun
  have hexit : fsys.status r ≠ file_type.none →
      main_loop fsys sep ex ft (pre ++ r :: post) [] =
        ⟨pre.flatMap (fun x => (fsys.recursive_directory_iterator x).filter
            (fun e => !is_path_excluded sep e ex && entry_printed fsys ft e)),
          ["Error: path '" ++ r ++ "' does not exist"], .exit 1⟩ := by
    intro hs
    rw [hrun, main_loop_cons_not_directory fsys sep ex ft r post _ hs hr]
  have hthrow : fsys.status r = file_type.none →
      main_loop fsys sep ex ft (pre ++ r :: post) [] =
        ⟨pre.flatMap (fun x => (fsys.recursive_directory_iterator x).filter
            (fun e => !is_path_excluded sep e ex && entry_printed fsys ft e)),
          [], .uncaught⟩ := by
    intro hs
    rw [hrun, main_loop_cons_throws fsys sep ex ft r post _ hs]
  have hpre_run := main_loop_all_directories fsys sep ex ft pre [] hpre
  simp only [print_entries_eq_filter, List.nil_append] at hpre_run
  refine ⟨hexit, hthrow, ?_, ?_, ?_, ?_⟩
  · by_cases hs : fsys.status r = file_type.none
    · rw [hthrow hs, hpre_run]
    · rw [hexit hs, hpre_run]
  · by_cases hs : fsys.status r = file_type.none
    · rw [hthrow hs]
      intro hc
      cases hc
    · rw [hexit hs]
      intro hc
      cases hc
  · rintro rfl
    by_cases hs : fsys.status r = file_type.none
    · rw [hthrow hs]
      rfl
    · rw [hexit hs]
      rfl
  · rintro rfl hs
    have hne : fsys.status r ≠ file_type.none := by
      rw [hs]
      intro hc
      cases hc
    rw [hexit hne]
    rfl

/-- C15 on the example tree with the roots `root`, `nowhere`, `root`, and on
a file system where the status of the root `locked` cannot be read. -/
theorem main_loop_missing_root_witness :
    main_loop (treeFS '/' "root" exampleTree) '/' [] 'a' (["root"] ++ "nowhere" :: ["root"]) []
      = ⟨["root/x", "root/x/y.txt", "root/z"], ["Error: path 'nowhere' does not exist"],
          .exit 1⟩ ∧
    main_loop ⟨fun _ => file_type.none, fun _ => []⟩ '/' [] 'a' ([] ++ "locked" :: ["root"]) []
      = ⟨[], [], .uncaught⟩ :=
  ⟨((main_loop_missing_root (treeFS '/' "root" exampleTree) '/' [] 'a' ["root"] "nowhere"
      ["root"] (by decide) (by rfl)).1 (by decide)).trans (by rfl),
    ((main_loop_missing_root ⟨fun _ => file_type.none, fun _ => []⟩ '/' [] 'a' [] "locked"
      ["root"] (by simp) (by rfl)).2.1 (by rfl)).trans (by rfl)⟩

/-- C16: an unknown-option exit, a help exit or an invalid-type exit is decided
by the tokens read so far: whatever tokens follow, parsing ends with the same
exit (for the same token). -/
theorem get_args_first_match (ts rest : List String) (e : Exit)
    (h : get_args ts = .error e)
    (he : (∃ a, e = .unknownOption a) ∨ e = .help ∨ e = .invalidType) :
    get_args (ts ++ rest) = .error e := by
  apply get_args_of_loop_error
  apply loop_append_error rest _ _ _ ((get_args_error_iff _ _).1 h)
  intro o ho
  rcases he with ⟨a, ha⟩ | ha | ha <;> rw [ha] at ho <;> cases ho

/-- C16 at the tokens `a --bogus`, followed by `-h -t`. -/
theorem get_args_first_match_witness :
    get_args (["a", "--bogus"] ++ ["-h", "-t"]) = .error (.unknownOption "--bogus") :=
  get_args_first_match ["a", "--bogus"] ["-h", "-t"] (.unknownOption "--bogus") (by rfl)
    (Or.inl ⟨"--bogus", rfl⟩)

theorem flatMap_sublist_flatMap {α β : Type} (l : List α) (f g : α → List β)
    (h : ∀ x, (f x).Sublist (g x)) : (l.flatMap f).Sublist (l.flatMap g) := by
  induction l with
  | nil => simp
  | cons x l ih =>
    rw [List.flatMap_cons, List.flatMap_cons]
    exact (h x).append ih

/-- C17: for roots that are all existing directories, the output for
directories only and the output for files only are each a subsequence of the
output for all entries, and no path is in both; an entry of the iteration that
is neither a directory nor a regular file and is not excluded is in the output
for all entries and in neither of the other two. -/
theorem main_loop_type_filters (fsys : FileSystem) (sep : Char) (ex : List String)
    (roots : List String) (h : ∀ r ∈ roots, is_directory fsys r = true) :
    (main_loop fsys sep ex 'd' roots []).stdout.Sublist
      (main_loop fsys sep ex 'a' roots []).stdout ∧
    (main_loop fsys sep ex 'f' roots []).stdout.Sublist
      (main_loop fsys sep ex 'a' roots []).stdout ∧
    (∀ p, p ∈ (main_loop fsys sep ex 'd' roots []).stdout →
      p ∉ (main_loop fsys sep ex 'f' roots []).stdout) ∧
    (∀ r ∈ roots, ∀ e ∈ fsys.recursive_directory_iterator r,
      is_directory fsys e = false → is_regular_file fsys e = false →
      is_path_excluded sep e ex = false →
        e ∈ (main_loop fsys sep ex 'a' roots []).stdout ∧
        e ∉ (main_loop fsys sep ex 'd' roots []).stdout ∧
        e ∉ (main_loop fsys sep ex 'f' roots []).stdout) := by
  have ha := main_loop_all_directories fsys sep ex 'a' roots [] h
  have hd := main_loop_all_directories fsys sep ex 'd' roots [] h
  have hf := main_loop_all_directories fsys sep ex 'f' roots [] h
  simp only [print_entries_eq_filter, entry_printed_all, entry_printed_directories,
    entry_printed_files, Bool.and_true, List.nil_append] at ha hd hf
  rw [ha, hd, hf]
  simp only
  have hdir : ∀ p, p ∈ roots.flatMap (fun r => (fsys.recursive_directory_iterator r).filter
      (fun e => !is_path_excluded sep e ex && is_directory fsys e)) →
      is_directory fsys p = true := by
    intro p hp
    obtain ⟨r, -, hpr⟩ := List.mem_flatMap.1 hp
    have := (List.mem_filter.1 hpr).2
    simp only [Bool.and_eq_true] at this
    exact this.2
  have hfile : ∀ p, p ∈ roots.flatMap (fun r => (fsys.recursive_directory_iterator r).filter
      (fun e => !is_path_excluded sep e ex && is_regular_file fsys e)) →
      is_regular_file fsys p = true := by
    intro p hp
    obtain ⟨r, -, hpr⟩ := List.mem_flatMap.1 hp
    have := (List.mem_filter.1 hpr).2
    simp only [Bool.and_eq_true] at this
    exact this.2
  refine ⟨?_, ?_, ?_, ?_⟩
  · apply flatMap_sublist_flatMap
    intro r
    apply List.monotone_filter_right
    intro e he
    simp only [Bool.and_eq_true] at he
    exact he.1
  · apply flatMap_sublist_flatMap
    intro r
    apply List.monotone_filter_right
    intro e he
    simp only [Bool.and_eq_true] at he
    exact he.1
  · intro p hpd hpf
    have h1 := hdir p hpd
    have h2 := hfile p hpf
    simp only [is_directory, is_regular_file, decide_eq_true_eq] at h1 h2
    rw [h1] at h2
    cases h2
  · intro r hr e he hed hef hex
    refine ⟨?_, ?_, ?_⟩
    · exact List.mem_flatMap.2 ⟨r, hr, List.mem_filter.2 ⟨he, by simp [hex]⟩⟩
    · intro hmem
      rw [hdir e hmem] at hed
      cases hed
    · intro hmem
      rw [hfile e hmem] at hef
      cases hef

/-- C17 on a directory `root` holding one entry `s` that is neither a directory
nor a regular file. -/
theorem main_loop_type_filters_witness :
    "root/s" ∈ (main_loop (treeFS '/' "root" (.other "s" .nil)) '/' [] 'a' ["root"] []).stdout ∧
    "root/s" ∉ (main_loop (treeFS '/' "root" (.other "s" .nil)) '/' [] 'd' ["root"] []).stdout ∧
    "root/s" ∉ (main_loop (treeFS '/' "root" (.other "s" .nil)) '/' [] 'f' ["root"] []).stdout :=
  (main_loop_type_filters (treeFS '/' "root" (.other "s" .nil)) '/' [] ["root"]
    (by decide)).2.2.2 "root" (by simp) "root/s" (by decide) (by rfl) (by rfl) (by rfl)

/-! ## Exclusion along the tree -/

theorem path_append_extends (sep : Char) (p name : String) :
    p.data <+: (path_append sep p name).data := by
  unfold path_append
  split
  · rename_i hnone
    rw [List.getLast?_eq_none_iff] at hnone
    rw [hnone]
    exact List.nil_prefix
  · split
    · rw [String.data_append]
      exact List.prefix_append _ _
    · rw [String.data_append, String.data_append, List.append_assoc]
      exact List.prefix_append _ _

/-- Every path of the iteration below a directory extends the path of that
directory. -/
theorem walk_extends (sep : Char) (tree : DirTree) :
    ∀ (parent : String), ∀ x ∈ tree.walk sep parent, parent.data <+: x.1.data := by
  induction tree with
  | nil => intro parent x hx; simp [DirTree.walk] at hx
  | file name rest ih =>
    intro parent x hx
    rw [DirTree.walk] at hx
    rcases List.mem_cons.1 hx with rfl | hx
    · exact path_append_extends sep parent name
    · exact ih parent x hx
  | other name rest ih =>
    intro parent x hx
    rw [DirTree.walk] at hx
    rcases List.mem_cons.1 hx with rfl | hx
    · exact path_append_extends sep parent name
    · exact ih parent x hx
  | dir name readable children rest ihc ihr =>
    intro parent x hx
    rw [DirTree.walk] at hx
    rcases List.mem_cons.1 hx with rfl | hx
    · exact path_append_extends sep parent name
    · rcases List.mem_append.1 hx with hx | hx
      · cases readable with
        | false => simp at hx
        | true =>
          simp only [if_true] at hx
          exact (path_append_extends sep parent name).trans (ihc _ x hx)
      · exact ihr parent x hx

theorem is_path_excluded_extends (sep : Char) (ex : List String) (p q : String)
    (hpq : (generic_string sep p).data <+: (generic_string sep q).data)
    (hp : is_path_excluded sep p ex = true) : is_path_excluded sep q ex = true := by
  rw [is_path_excluded_eq_true_iff] at hp ⊢
  obtain ⟨e, he, hi⟩ := hp
  exact ⟨e, he, hi.trans hpq.isInfix⟩

/-- With exclusions that match every entry the run prints nothing. -/
theorem main_loop_all_excluded (fsys : FileSystem) (sep : Char) (ex : List String)
    (ft : Char) (hex : ∀ e, is_path_excluded sep e ex = true) (roots : List String) :
    ∀ (out : List String), (main_loop fsys sep ex ft roots out).stdout = out := by
  induction roots with
  | nil => intro out; rfl
  | cons r roots ih =>
    intro out
    rw [main_loop]
    split
    · rfl
    · split
      · rfl
      · rw [ih, print_entries_eq_filter]
        have : List.filter
            (fun e => !is_path_excluded sep e ex && entry_printed fsys ft e)
            (fsys.recursive_directory_iterator r) = [] := by
          rw [List.filter_eq_nil_iff]
          intro e _
          simp [hex e]
        rw [this, List.append_nil]

/-- C18: exclusion is monotone under path extension: when `p` is excluded and
`p` in generic format is a prefix of `q` in generic format, `q` is excluded.
Hence below an excluded directory `p` every entry of the recursive iteration
is excluded and none is printed, although the iteration lists them. -/
theorem is_path_excluded_monotone (sep : Char) (ex : List String) (p q : String)
    (hpq : (generic_string sep p).data <+: (generic_string sep q).data)
    (hp : is_path_excluded sep p ex = true) :
    is_path_excluded sep q ex = true ∧
    (∀ (tree : DirTree), ∀ x ∈ tree.walk sep p,
      (generic_string sep p).data <+: (generic_string sep x.1).data ∧
      is_path_excluded sep x.1 ex = true) ∧
    (∀ (fsys : FileSystem) (ft : Char) (tree : DirTree),
      print_entries fsys sep ex ft ((tree.walk sep p).map Prod.fst) = []) := by
  have hbelow : ∀ (tree : DirTree), ∀ x ∈ tree.walk sep p,
      (generic_string sep p).data <+: (generic_string sep x.1).data := by
    intro tree x hx
    exact (walk_extends sep tree p x hx).map _
  refine ⟨is_path_excluded_extends sep ex p q hpq hp, ?_, ?_⟩
  · intro tree x hx
    exact ⟨hbelow tree x hx, is_path_excluded_extends sep ex p x.1 (hbelow tree x hx) hp⟩
  · intro fsys ft tree
    rw [print_entries_eq_filter, List.filter_eq_nil_iff]
    intro e he
    obtain ⟨x, hx, rfl⟩ := List.mem_map.1 he
    simp [is_path_excluded_extends sep ex p x.1 (hbelow tree x hx) hp]

/-- C18 at the excluded directory `root/x` of the example tree, with the
exclusion `x`. -/
theorem is_path_excluded_monotone_witness :
    is_path_excluded '/' "root/x/y.txt" ["x"] = true ∧
    (∀ (tree : DirTree), ∀ x ∈ tree.walk '/' "root/x",
      (generic_string '/' "root/x").data <+: (generic_string '/' x.1).data ∧
      is_path_excluded '/' x.1 ["x"] = true) ∧
    (∀ (fsys : FileSystem) (ft : Char) (tree : DirTree),
      print_entries fsys '/' ["x"] ft ((tree.walk '/' "root/x").map Prod.fst) = []) :=
  is_path_excluded_monotone '/' ["x"] "root/x" "root/x/y.txt"
    ⟨"/y.txt".data, by rfl⟩ (by rfl)

/-- C19: an exclusion list that contains the empty string excludes every path;
the tokens `-e ""` parse successfully with the empty string as the only
exclusion, and the run on them prints no path at all, whatever the file
system. -/
theorem is_path_excluded_empty_string (sep : Char) (p : String) (ex : List String)
    (h : "" ∈ ex) :
    is_path_excluded sep p ex = true ∧
    get_args ["-e", ""] = .ok [⟨true, "-e", ""⟩] ∧
    get_excluded_paths [⟨true, "-e", ""⟩] = [""] ∧
    (∀ (fsys : FileSystem) (cwd : String), (main fsys sep cwd ["-e", ""]).stdout = []) := by
  have hall : ∀ (q : String) (l : List String), "" ∈ l → is_path_excluded sep q l = true := by
    intro q l hl
    rw [is_path_excluded_eq_true_iff]
    exact ⟨"", hl, by
      have : (generic_string sep "").data = [] := rfl
      rw [this]
      exact List.nil_infix⟩
  refine ⟨hall p ex h, by rfl, by rfl, ?_⟩
  intro fsys cwd
  have hmain : main fsys sep cwd ["-e", ""] = main_loop fsys sep [""] 'a' [cwd] [] := by rfl
  rw [hmain]
  exact main_loop_all_excluded fsys sep [""] 'a' (fun e => hall e [""] (by simp)) [cwd] []

/-- C19 at the path `root/x` with the exclusions `a` and the empty string. -/
theorem is_path_excluded_empty_string_witness :
    is_path_excluded '/' "root/x" ["a", ""] = true ∧
    get_args ["-e", ""] = .ok [⟨true, "-e", ""⟩] ∧
    get_excluded_paths [⟨true, "-e", ""⟩] = [""] ∧
    (∀ (fsys : FileSystem) (cwd : String), (main fsys '/' cwd ["-e", ""]).stdout = []) :=
  is_path_excluded_empty_string '/' "root/x" ["a", ""] (by simp)

end Wdf
